import Mathlib

/-!
Verification of the AuditAI finding re-anchoring engine.

This file gives a shallow embedding, over `List Char` strings, of the
line re-anchoring engine and its helpers from the repository sources
(`normalizeFindingLines`, `findLinesByDirectMatch`, `deriveSnippetFromLines`,
`collectSnippetCandidates`, `includesLoosely`, `findingsForLine` from the
security helpers module, and `hasLineOverlap` from the evaluation script),
and proves or refutes the specified properties of those functions.

JavaScript strings are modelled as `List Char`; JavaScript numbers occurring
as line values are modelled as `Int` (the code only ever compares and adds
them); `undefined`/absent values are modelled with `Option`.
-/

namespace AuditAI

/-- JavaScript strings are modelled as lists of characters. -/
abbrev Str := List Char

/-- Conversion from Lean string literals to the model type. -/
def strOf (s : String) : Str := s.toList

/-- ASCII whitespace, the characters matched by the regex class used in the
source (space, tab, newline, carriage return, vertical tab, form feed). -/
def isWS (c : Char) : Bool :=
  c == ' ' || c == '\t' || c == '\n' || c == '\r' || c == '\x0b' || c == '\x0c'

/-- Model of `String.prototype.trim`: strip whitespace from both ends. -/
def trim (s : Str) : Str :=
  ((s.dropWhile isWS).reverse.dropWhile isWS).reverse

/-- Model of `value.split("\n")` (split on a single literal character). -/
def splitOnChar (ch : Char) : Str → List Str
  | [] => [[]]
  | c :: rest =>
    if c = ch then [] :: splitOnChar ch rest
    else
      match splitOnChar ch rest with
      | [] => [[c]]
      | l :: ls => (c :: l) :: ls

/-- Model of `value.split(/\r?\n/)` (the `LINE_SPLIT` regex of the source):
split on `\n`, also consuming a `\r` that immediately precedes it. -/
def splitLines : Str → List Str
  | [] => [[]]
  | '\r' :: '\n' :: rest => [] :: splitLines rest
  | '\n' :: rest => [] :: splitLines rest
  | c :: rest =>
    match splitLines rest with
    | [] => [[c]]
    | l :: ls => (c :: l) :: ls

/-- Model of `value.replace(/\r\n/g, "\n")`: collapse CRLF to LF. -/
def normCRLF : Str → Str
  | [] => []
  | '\r' :: '\n' :: rest => '\n' :: normCRLF rest
  | c :: rest => c :: normCRLF rest

/-- Number of `\n` characters of a string. -/
def countNL (s : Str) : Nat := s.count '\n'

/-- Model of `haystack.indexOf(needle)`: index of the leftmost occurrence,
`none` when there is no occurrence (JavaScript returns `-1`). -/
def firstIndexOf (hay needle : Str) : Option Nat :=
  if needle.isPrefixOf hay then some 0
  else
    match hay with
    | [] => none
    | _ :: t => (firstIndexOf t needle).map (fun n => n + 1)

/-- Model of `haystack.includes(needle)`. -/
def containsSub (hay needle : Str) : Bool := (firstIndexOf hay needle).isSome

/-- Model of `normalizeForMatch` from the helpers module:
`value.replace(/\r?\n/g, "").replace(/\s+/g, "").toLowerCase()`, whose net
effect is to remove every whitespace character and lower-case the rest. -/
def normalizeForMatch (value : Str) : Str :=
  (value.filter (fun c => !isWS c)).map Char.toLower

/-- Model of `includesLoosely` from the helpers module. -/
def includesLoosely (haystack needle : Str) : Bool :=
  if needle = [] then false
  else if containsSub haystack needle then true
  else
    let compactHaystack := normalizeForMatch haystack
    let compactNeedle := normalizeForMatch needle
    if compactHaystack = [] || compactNeedle = [] then false
    else containsSub compactHaystack compactNeedle

/-- Severity levels of the canonical finding model (`types.ts`). -/
inductive Severity
  | Low
  | Medium
  | High
  | Critical
deriving DecidableEq, Repr

/-- The `evidence` field of a finding (`types.ts`). -/
structure Evidence where
  lines : List Int
  snippet : Str
deriving DecidableEq, Repr

/-- One entry of `fix.patch` (`types.ts`); `line` is optional. -/
structure PatchEntry where
  line : Option Int
  insert_before : Option Str
  replace_with : Option Str
deriving DecidableEq, Repr

/-- The `fix` field of a finding (`types.ts`). -/
structure Fix where
  patch : List PatchEntry
  notes : Option Str
deriving DecidableEq, Repr

/-- The canonical finding model (`types.ts`).  The JavaScript `confidence`
number is carried opaquely as a rational; the engine never inspects it. -/
structure Finding where
  id : Str
  severity : Severity
  confidence : Rat
  cwe : Option Str
  owasp : Option Str
  evidence : Evidence
  explanation : Str
  fix : Fix
deriving DecidableEq, Repr

/-- Replace the evidence lines of a finding, keeping everything else
(the spread `{ ...finding, evidence: { ...finding.evidence, lines } }`). -/
def setLines (f : Finding) (ls : List Int) : Finding :=
  { f with evidence := { f.evidence with lines := ls } }

/-- Replace the evidence snippet of a finding, keeping everything else. -/
def setSnippet (f : Finding) (s : Str) : Finding :=
  { f with evidence := { f.evidence with snippet := s } }

/-- Model of `getExpectedLine`: the first evidence line if present,
otherwise the first patch entry carrying a `line` value. -/
def getExpectedLine (f : Finding) : Option Int :=
  match f.evidence.lines with
  | l :: _ => some l
  | [] =>
    match f.fix.patch.find? (fun p => p.line.isSome) with
    | some p => p.line
    | none => none

/-- Model of `fileLines[i] ?? ""` with a JavaScript (possibly negative or
out-of-range) index. -/
def jsIdx (xs : List Str) (i : Int) : Str :=
  if h : 0 ≤ i ∧ i.toNat < xs.length then xs.get ⟨i.toNat, h.2⟩ else []

/-- Model of `deriveSnippetFromLines`: join the file lines named by
`evidence.lines`, trim, and return the result when non-empty. -/
def deriveSnippetFromLines (fileLines : List Str) (f : Finding) : Option Str :=
  if f.evidence.lines = [] then none
  else
    let collected :=
      trim (List.intercalate ['\n'] (f.evidence.lines.map (fun ln => jsIdx fileLines (ln - 1))))
    if collected.length > 0 then some collected else none

/-- Model of `findLinesByDirectMatch`: locate the (CRLF-normalised) snippet
verbatim in the file content and return the contiguous line range of its
first occurrence. -/
def findLinesByDirectMatch (fileContent snippet : Str) : Option (List Int) :=
  if snippet = [] then none
  else
    let ns := normCRLF snippet
    match firstIndexOf fileContent ns with
    | none => none
    | some idx =>
      let pre := fileContent.take idx
      let startLine : Nat := if pre = [] then 1 else (splitOnChar '\n' pre).length
      let cnt : Nat := max (splitOnChar '\n' ns).length 1
      some ((List.range cnt).map (fun i => ((startLine + i : Nat) : Int)))

/-- One sliding-window test of `collectSnippetCandidates`: every meaningful
snippet line loosely matches the corresponding file line at offset `i`. -/
def windowOk (fileLines meaningful : List Str) (i : Nat) : Bool :=
  (List.range meaningful.length).all
    (fun j => includesLoosely ((fileLines.get? (i + j)).getD []) ((meaningful.get? j).getD []))

/-- Model of `collectSnippetCandidates`: multi-line window candidates when at
least two meaningful snippet lines exist, otherwise (or when the window scan
finds nothing) single-line candidates for the longest meaningful line. -/
def collectSnippetCandidates (fileLines snippetLines : List Str) : List Nat :=
  let meaningful := (snippetLines.map trim).filter (fun l => l ≠ [])
  if meaningful = [] then []
  else
    let multi :=
      if meaningful.length > 1 ∧ meaningful.length ≤ fileLines.length then
        (List.range (fileLines.length - meaningful.length + 1)).filter (windowOk fileLines meaningful)
      else []
    if multi = [] then
      let signature := meaningful.foldl (fun s l => if s.length < l.length then l else s) []
      (List.range fileLines.length).filter
        (fun i => includesLoosely ((fileLines.get? i).getD []) signature)
    else multi

/-- The candidate-disambiguation step of `normalizeFindingLines` (source lines
188-199): with an expected line, the candidate numerically closest to it
(first wins ties); without one, the first candidate. -/
def chooseBaseIndex (c0 : Nat) (cs : List Nat) (expectedLine : Option Int) : Nat :=
  match expectedLine with
  | none => c0
  | some e =>
    let eIdx : Int := max (e - 1) 0
    (cs.foldl
      (fun (best : Nat × Int) (idx : Nat) =>
        if |(idx : Int) - eIdx| < best.2 then (idx, |(idx : Int) - eIdx|) else best)
      ((c0, |(c0 : Int) - eIdx|) : Nat × Int)).1

/-- The snippet line count used by the loose stage (source lines 163-167):
number of non-blank trimmed snippet lines, at least one. -/
def snippetCount (snippet : Str) : Nat :=
  max (((splitLines snippet).map trim).filter (fun l => l ≠ [])).length 1

/-- The hint fallback lines (source lines 171-184): `cnt` consecutive line
numbers starting at the expected line, with no bounds check. -/
def hintLines (e : Int) (cnt : Nat) : List Int :=
  (List.range cnt).map (fun (i : Nat) => e + (i : Int))

/-- The final line-range construction (source lines 201-207): `cnt` consecutive
line numbers starting at `b + 1`, keeping only those within the file. -/
def rangeLines (b : Nat) (cnt : Nat) (len : Nat) : List Int :=
  ((List.range cnt).map (fun (i : Nat) => (b : Int) + 1 + (i : Int))).filter
    (fun ln => ln ≤ (len : Int))

/-- The loose-matching tail of `normalizeFindingLines` (source lines 163-215):
window/signature candidates, hint fallback when none, disambiguation and
clipped range construction otherwise. -/
def looseStage (fileLines : List Str) (expectedLine : Option Int) (snippet : Str)
    (workingFinding : Finding) : Finding :=
  let candidates := collectSnippetCandidates fileLines (splitLines snippet)
  match candidates with
  | [] =>
    match expectedLine with
    | some e => setLines workingFinding (hintLines e (snippetCount snippet))
    | none => workingFinding
  | c0 :: cs =>
    setLines workingFinding
      (rangeLines (chooseBaseIndex c0 cs expectedLine) (snippetCount snippet) fileLines.length)

/-- The part of `normalizeFindingLines` reached when the direct match did not
return a non-empty result (source lines 137-215). -/
def afterDirect (fileLines : List Str) (expectedLine : Option Int) (snippet : Str)
    (finding : Finding) : Finding :=
  if snippet = [] then
    match deriveSnippetFromLines fileLines finding with
    | some derived =>
      looseStage fileLines expectedLine (trim derived) (setSnippet finding derived)
    | none =>
      match expectedLine with
      | some e =>
        if e > 0 then
          { finding with evidence :=
            { finding.evidence with snippet := jsIdx fileLines (e - 1), lines := [e] } }
        else finding
      | none => finding
  else looseStage fileLines expectedLine snippet finding

/-- Model of the JavaScript nullish coalescing `a ?? b`. -/
def jsOr (a b : Option α) : Option α :=
  match a with
  | some x => some x
  | none => b

/-- Model of `normalizeFindingLines`, the re-anchoring engine: direct match
on the raw then the trimmed snippet, then the fall-back stages. -/
def normalizeFindingLines (fileContent : Str) (finding : Finding) : Finding :=
  let normalizedFile := normCRLF fileContent
  let fileLines := splitLines fileContent
  let expectedLine := getExpectedLine finding
  let rawSnippet := finding.evidence.snippet
  let snippet := trim rawSnippet
  match jsOr (findLinesByDirectMatch normalizedFile rawSnippet)
      (findLinesByDirectMatch normalizedFile snippet) with
  | some directLines =>
    if directLines = [] then afterDirect fileLines expectedLine snippet finding
    else setLines finding directLines
  | none => afterDirect fileLines expectedLine snippet finding

/-- Model of `findingsForLine`'s per-finding test: corrected lines include the
queried line, or (with no lines) a trimmed snippet line of length at least two
occurs literally in the queried file line. -/
def lineMatchesFinding (rawLine : Str) (lineNumber : Int) (f : Finding) : Bool :=
  if f.evidence.lines = [] then
    let snippet := trim f.evidence.snippet
    if snippet = [] then false
    else
      (splitLines snippet).any
        (fun s => decide ((trim s).length ≥ 2) && containsSub rawLine (trim s))
  else f.evidence.lines.contains lineNumber

/-- Model of `findingsForLine`: the findings applicable to a display line. -/
def findingsForLine (findings : List Finding) (fileContent : Str) (lineNumber : Int) :
    List Finding :=
  let lines := splitLines fileContent
  let rawLine := jsIdx lines (lineNumber - 1)
  findings.filter (lineMatchesFinding rawLine lineNumber)

/-- Model of `hasLineOverlap` from the evaluation script: the arguments are
optional arrays, and a missing or empty array on either side counts as a
match; otherwise some common element is required. -/
def hasLineOverlap (a b : Option (List Int)) : Bool :=
  if (a.getD []) = [] || (b.getD []) = [] then true
  else (a.getD []).any (fun l => (b.getD []).contains l)

/-- The per-finding applicability test exactly as the specification states it
(corrected lines contain the queried line; otherwise some non-blank trimmed
snippet line of length at least two occurs literally in the queried display
line).  Written from the specification text, to be compared with the
source-derived `lineMatchesFinding`. -/
def claimFindingApplies (fileContent : Str) (lineNumber : Int) (f : Finding) : Bool :=
  (decide (f.evidence.lines ≠ []) && f.evidence.lines.contains lineNumber) ||
    (decide (f.evidence.lines = []) &&
      (splitLines (trim f.evidence.snippet)).any
        (fun s =>
          decide (trim s ≠ []) && decide ((trim s).length ≥ 2) &&
            containsSub (jsIdx (splitLines fileContent) (lineNumber - 1)) (trim s)))

/-- A canonical finding with the given evidence and patch, used to build the
concrete inputs of the theorems below. -/
def mkFinding (lines : List Int) (snippet : Str) (patch : List PatchEntry) : Finding :=
  { id := strOf "finding-1", severity := Severity.High, confidence := 1,
    cwe := none, owasp := none,
    evidence := { lines := lines, snippet := snippet },
    explanation := strOf "explanation",
    fix := { patch := patch, notes := none } }

/-- A patch entry that only carries a line hint. -/
def mkPatch (l : Int) : PatchEntry :=
  { line := some l, insert_before := none, replace_with := none }

/-- One-line file used against the validity invariant. -/
def exC1File : Str := strOf "a"

/-- Empty snippet and the out-of-range hint 99. -/
def exC1Finding : Finding := mkFinding [99] [] []

/-- File in which the trimmed snippet occurs at line 1 but the raw snippet
(with a leading newline) first occurs at line 2. -/
def exC2File : Str := strOf "foo\nbar\nfoo"

/-- A raw snippet whose leading newline shifts the direct match. -/
def exC2Finding : Finding := mkFinding [] (strOf "\nfoo") []

/-- Six-line file containing `const x = 1;` at line 5. -/
def exC2DemoFile : Str := strOf "l1\nl2\nl3\nl4\nconst x = 1;\nl6"

/-- Snippet `const x = 1;` with conflicting hints in both lines and patch. -/
def exC2DemoFinding : Finding := mkFinding [2] (strOf "const x = 1;") [mkPatch 99]

/-- Three-line file whose first line is blank; lines 1-2 derive snippet `x`. -/
def exC3File : Str := strOf "\nx\nx y"

/-- Empty snippet with the valid given lines [1, 2]. -/
def exC3Finding : Finding := mkFinding [1, 2] [] []

/-- Forty-line file with loose matches for the demo signature at lines 3
and 40 only. -/
def exC5File : Str :=
  strOf "a0\na1\nxneedley\na3\na4\na5\na6\na7\na8\na9\na10\na11\na12\na13\na14\na15\na16\na17\na18\na19\na20\na21\na22\na23\na24\na25\na26\na27\na28\na29\na30\na31\na32\na33\na34\na35\na36\na37\na38\nzneedlew"

/-- Snippet matching only loosely (extra inner space), with hint line 38. -/
def exC5Finding : Finding := mkFinding [38] (strOf "need le") []

/-- Two identical lines; the derived snippet direct-matches line 1 on rerun. -/
def exC6File : Str := strOf "foo\nfoo"

/-- Empty snippet with given line 2; the first run backfills snippet `foo`. -/
def exC6Finding : Finding := mkFinding [2] [] []

/-- Two-line file for the idempotence witness. -/
def exC6WitFile : Str := strOf "a\nb"

/-- Non-empty snippet for the idempotence witness. -/
def exC6WitFinding : Finding := mkFinding [] (strOf "b") []

/-- File containing two consecutive spaces. -/
def exC7File : Str := strOf "a  b"

/-- Whitespace-only (hence trimmed-empty) snippet, no lines, no hints. -/
def exC7Finding : Finding := mkFinding [] (strOf "  ") []

/-- One-line file for the total-failure witness. -/
def exC7WitFile : Str := strOf "x"

/-- Finding with empty snippet, no lines and no patch hints. -/
def exC7WitFinding : Finding := mkFinding [] [] []

/-- The four-line file of the specification scenario. -/
def exC9File : Str := strOf "line1\nline2\nconst q = db.query(sql);\nline4"

/-- The finding anchored at line 3 of the scenario file. -/
def exC9Finding : Finding := mkFinding [3] (strOf "const q = db.query(sql);") []

/-- Agreement of two findings on every field other than `evidence`. -/
def agreesOutsideEvidence (g f : Finding) : Prop :=
  g.id = f.id ∧ g.severity = f.severity ∧ g.confidence = f.confidence ∧
    g.cwe = f.cwe ∧ g.owasp = f.owasp ∧ g.explanation = f.explanation ∧
    g.fix = f.fix


theorem splitOnChar_ne_nil (ch : Char) (s : Str) : splitOnChar ch s ≠ [] := by
  induction s with
  | nil => simp [splitOnChar]
  | cons c rest ih =>
    unfold splitOnChar
    by_cases h : c = ch <;> simp [h]
    rcases hr : splitOnChar ch rest with _ | ⟨l, ls⟩
    · exact absurd hr ih
    · simp

theorem splitOnChar_length (ch : Char) (s : Str) :
    (splitOnChar ch s).length = s.count ch + 1 := by
  induction s with
  | nil => simp [splitOnChar]
  | cons c rest ih =>
    unfold splitOnChar
    by_cases h : c = ch
    · simp [h, List.count_cons, ih]
    · rcases hr : splitOnChar ch rest with _ | ⟨l, ls⟩
      · exact absurd hr (splitOnChar_ne_nil ch rest)
      · have := ih
        rw [hr] at this
        simp [h, List.count_cons]
        simpa using this

theorem splitLines_nil : splitLines [] = [[]] := rfl

theorem splitLines_crlf (r : Str) : splitLines ('\r' :: '\n' :: r) = [] :: splitLines r := rfl

theorem splitLines_lf (r : Str) : splitLines ('\n' :: r) = [] :: splitLines r := rfl

theorem splitLines_cons (c : Char) (r : Str) (h2 : c ≠ '\n')
    (h1 : ∀ r2, ¬(c = '\r' ∧ r = '\n' :: r2)) :
    splitLines (c :: r) =
      match splitLines r with
      | [] => [[c]]
      | l :: ls => (c :: l) :: ls := by
  rw [splitLines.eq_def]
  split
  · simp_all
  · rename_i heq; injection heq with hc hr; exact absurd ⟨hc, hr⟩ (h1 _)
  · rename_i heq; injection heq with hc hr; exact absurd hc h2
  · rename_i heq; injection heq with hc hr; rw [hc, hr]

theorem normCRLF_nil : normCRLF [] = [] := rfl

theorem normCRLF_crlf (r : Str) : normCRLF ('\r' :: '\n' :: r) = '\n' :: normCRLF r := rfl

theorem normCRLF_cons (c : Char) (r : Str)
    (h1 : ∀ r2, ¬(c = '\r' ∧ r = '\n' :: r2)) :
    normCRLF (c :: r) = c :: normCRLF r := by
  rw [normCRLF.eq_def]
  split
  · simp_all
  · rename_i heq; injection heq with hc hr; exact absurd ⟨hc, hr⟩ (h1 _)
  · rename_i heq; injection heq with hc hr; rw [hc, hr]

theorem splitLines_length (s : Str) : (splitLines s).length = countNL s + 1 := by
  induction s using splitLines.induct with
  | case1 => simp [splitLines_nil, countNL]
  | case2 rest ih => simp [splitLines_crlf, countNL, List.count_cons] at *; omega
  | case3 rest ih => simp [splitLines_lf, countNL, List.count_cons] at *; omega
  | case4 c rest h1 h2 hnil ih => rw [hnil] at ih; simp at ih
  | case5 c rest h1 h2 l ls hrest ih =>
    rw [splitLines_cons c rest (fun h => h2 h) (fun r2 hx => h1 r2 hx.1 hx.2), hrest]
    rw [hrest] at ih
    have hc : (c == '\n') = false := by
      simp only [beq_eq_false_iff_ne]; exact fun h => h2 h
    simp [countNL, List.count_cons, hc] at *
    omega

theorem countNL_normCRLF (s : Str) : countNL (normCRLF s) = countNL s := by
  induction s using normCRLF.induct with
  | case1 => rfl
  | case2 rest ih => simp [normCRLF_crlf, countNL, List.count_cons] at *; omega
  | case3 c rest h1 ih =>
    rw [normCRLF_cons c rest (fun r2 hx => h1 r2 hx.1 hx.2)]
    simp [countNL, List.count_cons] at *
    omega

theorem firstIndexOf_spec (needle : Str) (hay : Str) (idx : Nat)
    (h : firstIndexOf hay needle = some idx) : needle <+: hay.drop idx := by
  induction hay generalizing idx with
  | nil =>
    unfold firstIndexOf at h
    by_cases hp : needle.isPrefixOf ([] : Str)
    · simp [hp] at h; subst h; simpa [List.isPrefixOf_iff_prefix] using hp
    · simp [hp] at h
  | cons c t ih =>
    unfold firstIndexOf at h
    by_cases hp : needle.isPrefixOf (c :: t)
    · simp [hp] at h; subst h; simpa [List.isPrefixOf_iff_prefix] using hp
    · simp only [hp, Bool.false_eq_true, if_false] at h
      rcases Option.map_eq_some'.mp h with ⟨j, hj, hrfl⟩
      subst hrfl
      simpa using ih j hj

theorem countNL_take_add (hay needle : Str) (idx : Nat)
    (h : firstIndexOf hay needle = some idx) :
    countNL (hay.take idx) + countNL needle ≤ countNL hay := by
  have hpre := firstIndexOf_spec needle hay idx h
  have hsub : countNL needle ≤ countNL (hay.drop idx) := hpre.sublist.count_le '\n'
  have hsplit : countNL (hay.take idx) + countNL (hay.drop idx) = countNL hay := by
    unfold countNL
    rw [← List.count_append, List.take_append_drop]
  omega

theorem startLine_eq (pre : Str) :
    (if pre = [] then 1 else (splitOnChar '\n' pre).length) = countNL pre + 1 := by
  by_cases h : pre = [] <;> simp [h, splitOnChar_length, countNL]

theorem direct_valid (c s : Str) (dl : List Int)
    (h : findLinesByDirectMatch (normCRLF c) s = some dl) :
    ∀ l ∈ dl, 1 ≤ l ∧ l ≤ ((splitLines c).length : Int) := by
  unfold findLinesByDirectMatch at h
  by_cases hs : s = []
  · simp [hs] at h
  · simp only [hs, if_false] at h
    rcases hidx : firstIndexOf (normCRLF c) (normCRLF s) with _ | idx
    · rw [hidx] at h; simp at h
    · rw [hidx] at h
      simp only [Option.some_inj] at h
      subst h
      intro l hl
      simp only [List.mem_map, List.mem_range] at hl
      rcases hl with ⟨i, hi, rfl⟩
      rw [startLine_eq]
      have hcnt : max (splitOnChar '\n' (normCRLF s)).length 1 = countNL (normCRLF s) + 1 := by
        unfold countNL
        rw [splitOnChar_length]
        omega
      rw [hcnt] at hi
      have hchain := countNL_take_add (normCRLF c) (normCRLF s) idx hidx
      have hlines := splitLines_length c
      have hnorm := countNL_normCRLF c
      constructor
      · push_cast; omega
      · push_cast; omega

theorem setLines_lines (f : Finding) (ls : List Int) : (setLines f ls).evidence.lines = ls := rfl

theorem setLines_snippet (f : Finding) (ls : List Int) :
    (setLines f ls).evidence.snippet = f.evidence.snippet := rfl

theorem setLines_setLines (f : Finding) (a b : List Int) :
    setLines (setLines f a) b = setLines f b := rfl

theorem setSnippet_snippet (f : Finding) (s : Str) : (setSnippet f s).evidence.snippet = s := rfl

theorem getExpectedLine_setLines_cons (f : Finding) (a : Int) (l : List Int) :
    getExpectedLine (setLines f (a :: l)) = some a := rfl

theorem jsOr_eq_none (a b : Option α) : jsOr a b = none ↔ a = none ∧ b = none := by
  cases a <;> simp [jsOr]

theorem findLinesByDirectMatch_ne_nil (fc s : Str) (dl : List Int)
    (h : findLinesByDirectMatch fc s = some dl) : dl ≠ [] := by
  unfold findLinesByDirectMatch at h
  by_cases hs : s = []
  · simp [hs] at h
  · simp only [hs, if_false] at h
    rcases hidx : firstIndexOf fc (normCRLF s) with _ | idx
    · rw [hidx] at h; simp at h
    · rw [hidx] at h
      simp only [Option.some_inj] at h
      subst h
      simp only [ne_eq, List.map_eq_nil_iff, List.range_eq_nil]
      omega

theorem foldBest_spec (eIdx : Int) (cs : List Nat) (b0 : Nat × Int)
    (hb : b0.2 = |(b0.1 : Int) - eIdx|) :
    (cs.foldl
        (fun (best : Nat × Int) (idx : Nat) =>
          if |(idx : Int) - eIdx| < best.2 then (idx, |(idx : Int) - eIdx|) else best)
        b0).2 =
        |(((cs.foldl
          (fun (best : Nat × Int) (idx : Nat) =>
            if |(idx : Int) - eIdx| < best.2 then (idx, |(idx : Int) - eIdx|) else best)
          b0).1 : Nat) : Int) - eIdx| ∧
      ((cs.foldl
        (fun (best : Nat × Int) (idx : Nat) =>
          if |(idx : Int) - eIdx| < best.2 then (idx, |(idx : Int) - eIdx|) else best)
        b0).1 = b0.1 ∨
      (cs.foldl
        (fun (best : Nat × Int) (idx : Nat) =>
          if |(idx : Int) - eIdx| < best.2 then (idx, |(idx : Int) - eIdx|) else best)
        b0).1 ∈ cs) ∧
      (cs.foldl
        (fun (best : Nat × Int) (idx : Nat) =>
          if |(idx : Int) - eIdx| < best.2 then (idx, |(idx : Int) - eIdx|) else best)
        b0).2 ≤ b0.2 ∧
      ∀ x ∈ cs,
        (cs.foldl
          (fun (best : Nat × Int) (idx : Nat) =>
            if |(idx : Int) - eIdx| < best.2 then (idx, |(idx : Int) - eIdx|) else best)
          b0).2 ≤ |(x : Int) - eIdx| := by
  induction cs generalizing b0 with
  | nil => exact ⟨hb, Or.inl rfl, le_refl _, by simp⟩
  | cons x xs ih =>
    simp only [List.foldl_cons]
    by_cases hx : |(x : Int) - eIdx| < b0.2
    · have step : (if |(x : Int) - eIdx| < b0.2 then ((x, |(x : Int) - eIdx|) : Nat × Int) else b0) =
          (x, |(x : Int) - eIdx|) := if_pos hx
      rw [step]
      rcases ih (x, |(x : Int) - eIdx|) rfl with ⟨h1, h2, h3, h4⟩
      refine ⟨h1, ?_, ?_, ?_⟩
      · rcases h2 with h2 | h2
        · exact Or.inr (by simp [h2])
        · exact Or.inr (List.mem_cons_of_mem _ h2)
      · exact le_trans h3 (le_of_lt hx)
      · intro y hy
        rcases List.mem_cons.mp hy with rfl | hy
        · exact h3
        · exact h4 y hy
    · have step : (if |(x : Int) - eIdx| < b0.2 then ((x, |(x : Int) - eIdx|) : Nat × Int) else b0) = b0 :=
        if_neg hx
      rw [step]
      rcases ih b0 hb with ⟨h1, h2, h3, h4⟩
      refine ⟨h1, ?_, h3, ?_⟩
      · rcases h2 with h2 | h2
        · exact Or.inl h2
        · exact Or.inr (List.mem_cons_of_mem _ h2)
      · intro y hy
        rcases List.mem_cons.mp hy with rfl | hy
        · exact le_trans h3 (by omega)
        · exact h4 y hy

theorem chooseBaseIndex_mem (c0 : Nat) (cs : List Nat) (e? : Option Int) :
    chooseBaseIndex c0 cs e? ∈ c0 :: cs := by
  cases e? with
  | none => simp [chooseBaseIndex]
  | some e =>
    unfold chooseBaseIndex
    rcases foldBest_spec (max (e - 1) 0) cs (c0, |(c0 : Int) - max (e - 1) 0|) rfl with
      ⟨_, h2, _, _⟩
    rcases h2 with h2 | h2
    · simp [h2]
    · exact List.mem_cons_of_mem _ h2

theorem chooseBaseIndex_min (c0 : Nat) (cs : List Nat) (e : Int) :
    ∀ x ∈ c0 :: cs,
      |((chooseBaseIndex c0 cs (some e) : Nat) : Int) - max (e - 1) 0| ≤
        |(x : Int) - max (e - 1) 0| := by
  intro x hx
  unfold chooseBaseIndex
  rcases foldBest_spec (max (e - 1) 0) cs (c0, |(c0 : Int) - max (e - 1) 0|) rfl with
    ⟨h1, _, h3, h4⟩
  rcases List.mem_cons.mp hx with rfl | hx
  · rw [← h1]; exact h3
  · rw [← h1]; exact h4 x hx

theorem chooseBaseIndex_none (c0 : Nat) (cs : List Nat) : chooseBaseIndex c0 cs none = c0 := rfl

theorem chooseBaseIndex_exact (c0 : Nat) (cs : List Nat) (b : Nat) (e : Int)
    (hmem : b ∈ c0 :: cs) (he : max (e - 1) 0 = (b : Int)) :
    chooseBaseIndex c0 cs (some e) = b := by
  have h1 := chooseBaseIndex_min c0 cs e b hmem
  rw [he] at h1
  simp only [sub_self, abs_zero] at h1
  have h2 : ((chooseBaseIndex c0 cs (some e) : Nat) : Int) - (b : Int) = 0 := by
    have := abs_nonpos_iff.mp h1
    exact this
  have h3 : ((chooseBaseIndex c0 cs (some e) : Nat) : Int) = (b : Int) := by omega
  exact_mod_cast h3

theorem collectSnippetCandidates_lt (fl sl : List Str) :
    ∀ i ∈ collectSnippetCandidates fl sl, i < fl.length := by
  intro i hi
  unfold collectSnippetCandidates at hi
  simp only [] at hi
  split_ifs at hi
  all_goals simp_all
  all_goals omega

theorem snippetCount_pos (s : Str) : 0 < snippetCount s := by
  unfold snippetCount
  omega

theorem rangeLines_mem (b cnt len : Nat) :
    ∀ l ∈ rangeLines b cnt len, 1 ≤ l ∧ l ≤ (len : Int) := by
  intro l hl
  unfold rangeLines at hl
  rcases List.mem_filter.mp hl with ⟨hm, hle⟩
  rcases List.mem_map.mp hm with ⟨i, _, rfl⟩
  refine ⟨by omega, ?_⟩
  exact of_decide_eq_true hle

theorem rangeLines_head (b cnt len : Nat) (hcnt : 0 < cnt) (hb : b < len) :
    ∃ rest, rangeLines b cnt len = ((b : Int) + 1) :: rest := by
  obtain ⟨k, rfl⟩ := Nat.exists_eq_add_of_lt hcnt
  unfold rangeLines
  rw [Nat.zero_add, List.range_succ_eq_map, List.map_cons, List.filter_cons]
  have h0 : ((b : Int) + 1 + ((0 : Nat) : Int)) = (b : Int) + 1 := by push_cast; ring
  rw [h0]
  have hle : ((b : Int) + 1) ≤ (len : Int) := by omega
  rw [if_pos (decide_eq_true hle)]
  exact ⟨_, rfl⟩

theorem hintLines_head (e : Int) (cnt : Nat) (hcnt : 0 < cnt) :
    ∃ rest, hintLines e cnt = e :: rest := by
  obtain ⟨k, rfl⟩ := Nat.exists_eq_add_of_lt hcnt
  unfold hintLines
  rw [Nat.zero_add, List.range_succ_eq_map, List.map_cons]
  have h0 : (e + ((0 : Nat) : Int)) = e := by push_cast; ring
  rw [h0]
  exact ⟨_, rfl⟩

theorem looseStage_nil_none (fl : List Str) (s : Str) (w : Finding)
    (hc : collectSnippetCandidates fl (splitLines s) = []) :
    looseStage fl none s w = w := by
  unfold looseStage
  rw [hc]

theorem looseStage_nil_some (fl : List Str) (e : Int) (s : Str) (w : Finding)
    (hc : collectSnippetCandidates fl (splitLines s) = []) :
    looseStage fl (some e) s w = setLines w (hintLines e (snippetCount s)) := by
  unfold looseStage
  rw [hc]

theorem looseStage_cons (fl : List Str) (e? : Option Int) (s : Str) (w : Finding)
    (c0 : Nat) (cs : List Nat)
    (hc : collectSnippetCandidates fl (splitLines s) = c0 :: cs) :
    looseStage fl e? s w =
      setLines w (rangeLines (chooseBaseIndex c0 cs e?) (snippetCount s) fl.length) := by
  unfold looseStage
  rw [hc]

theorem afterDirect_loose (fl : List Str) (e? : Option Int) (s : Str) (f : Finding)
    (hs : s ≠ []) : afterDirect fl e? s f = looseStage fl e? s f := by
  unfold afterDirect
  simp [hs]

theorem afterDirect_derived (fl : List Str) (e? : Option Int) (f : Finding) (d : Str)
    (hd : deriveSnippetFromLines fl f = some d) :
    afterDirect fl e? [] f = looseStage fl e? (trim d) (setSnippet f d) := by
  unfold afterDirect
  rw [if_pos rfl, hd]

theorem afterDirect_hint (fl : List Str) (e : Int) (f : Finding)
    (hd : deriveSnippetFromLines fl f = none) (hpos : e > 0) :
    afterDirect fl (some e) [] f =
      { f with evidence :=
        { f.evidence with snippet := jsIdx fl (e - 1), lines := [e] } } := by
  unfold afterDirect
  rw [if_pos rfl, hd]
  simp [hpos]

theorem afterDirect_stuck (fl : List Str) (e? : Option Int) (f : Finding)
    (hd : deriveSnippetFromLines fl f = none)
    (he : ∀ e, e? = some e → ¬e > 0) :
    afterDirect fl e? [] f = f := by
  unfold afterDirect
  rw [if_pos rfl, hd]
  cases e? with
  | none => rfl
  | some e => simp [he e rfl]

theorem normalizeFindingLines_direct (c : Str) (f : Finding) (dl : List Int)
    (hD : jsOr (findLinesByDirectMatch (normCRLF c) f.evidence.snippet)
        (findLinesByDirectMatch (normCRLF c) (trim f.evidence.snippet)) = some dl)
    (hne : dl ≠ []) : normalizeFindingLines c f = setLines f dl := by
  unfold normalizeFindingLines
  simp only []
  rw [hD]
  simp [hne]

theorem normalizeFindingLines_nodirect (c : Str) (f : Finding)
    (hD : jsOr (findLinesByDirectMatch (normCRLF c) f.evidence.snippet)
        (findLinesByDirectMatch (normCRLF c) (trim f.evidence.snippet)) = none) :
    normalizeFindingLines c f =
      afterDirect (splitLines c) (getExpectedLine f) (trim f.evidence.snippet) f := by
  unfold normalizeFindingLines
  simp only []
  rw [hD]

theorem looseStage_snippet (fl : List Str) (e? : Option Int) (s : Str) (w : Finding) :
    (looseStage fl e? s w).evidence.snippet = w.evidence.snippet := by
  rcases hc : collectSnippetCandidates fl (splitLines s) with _ | ⟨c0, cs⟩
  · cases e? with
    | none => rw [looseStage_nil_none fl s w hc]
    | some e => rw [looseStage_nil_some fl e s w hc, setLines_snippet]
  · rw [looseStage_cons fl e? s w c0 cs hc, setLines_snippet]

/-- C4 counterexample: the harness comparison declares a match for an empty
predicted list against the non-empty expected list `[5]`, although the two
lists share no line number and are not both empty. -/
theorem C4_counterexample :
    hasLineOverlap (some []) (some [5]) = true ∧
      ¬((∃ l ∈ ([] : List Int), l ∈ ([5] : List Int)) ∨
        (([] : List Int) = [] ∧ ([5] : List Int) = [])) := by
  decide

/-- C4 (amended): `hasLineOverlap` returns a match exactly when the two lists
share a common line number or either list is empty; a missing argument on
either side likewise counts as a match. -/
theorem C4_amended (a b : List Int) (oa ob : Option (List Int)) :
    (hasLineOverlap (some a) (some b) = true ↔
      ((∃ l ∈ a, l ∈ b) ∨ a = [] ∨ b = [])) ∧
      hasLineOverlap none ob = true ∧ hasLineOverlap oa none = true := by
  refine ⟨?_, by cases ob <;> rfl, by cases oa <;> simp [hasLineOverlap]⟩
  unfold hasLineOverlap
  by_cases ha : a = [] <;> by_cases hb : b = [] <;>
    simp [ha, hb, List.any_eq_true]

/-- C7 counterexample: a whitespace-only (trimmed-empty) snippet with no lines
and no patch hints is nevertheless relocated — the raw two-space snippet
direct-matches inside `a  b` and the engine returns lines `[1]`. -/
theorem C7_counterexample :
    trim exC7Finding.evidence.snippet = [] ∧
      exC7Finding.evidence.lines = [] ∧
      (∀ p ∈ exC7Finding.fix.patch, p.line = none) ∧
      (normalizeFindingLines exC7File exC7Finding).evidence.lines = [1] := by
  decide

/-- C7 (amended): when the snippet is the empty string (rather than merely
trimming to empty), the lines are empty and no patch entry carries a line,
the engine returns the finding unchanged; totality of the model is by
construction. -/
theorem C7_amended (c : Str) (f : Finding) (hs : f.evidence.snippet = [])
    (hl : f.evidence.lines = []) (hp : ∀ p ∈ f.fix.patch, p.line = none) :
    normalizeFindingLines c f = f := by
  have htr : trim f.evidence.snippet = [] := by rw [hs]; rfl
  have h1 : findLinesByDirectMatch (normCRLF c) f.evidence.snippet = none := by
    rw [hs]; rfl
  have h2 : findLinesByDirectMatch (normCRLF c) (trim f.evidence.snippet) = none := by
    rw [htr]; rfl
  have hD : jsOr (findLinesByDirectMatch (normCRLF c) f.evidence.snippet)
      (findLinesByDirectMatch (normCRLF c) (trim f.evidence.snippet)) = none := by
    rw [h1, h2]; rfl
  rw [normalizeFindingLines_nodirect c f hD, htr]
  have hfind : f.fix.patch.find? (fun p => p.line.isSome) = none := by
    rw [List.find?_eq_none]
    intro p hp2
    simp [hp p hp2]
  have he : getExpectedLine f = none := by
    unfold getExpectedLine
    rw [hl, hfind]
  have hd : deriveSnippetFromLines (splitLines c) f = none := by
    unfold deriveSnippetFromLines
    rw [hl]
    simp
  rw [he]
  exact afterDirect_stuck _ none f hd (by intro e he2; cases he2)

/-- C7 witness: on the one-line file `x` and a finding with empty snippet,
no lines and no patch, the engine is the identity. -/
theorem C7_witness : normalizeFindingLines exC7WitFile exC7WitFinding = exC7WitFinding :=
  C7_amended exC7WitFile exC7WitFinding rfl rfl (by decide)

/-- C8 counterexample: for the non-empty needle consisting of one space and
the haystack `ab`, the claimed disjunction holds (the canonical haystack `ab`
is non-empty and contains the empty canonical needle), yet `includesLoosely`
returns false because the code also requires the canonical needle to be
non-empty. -/
theorem C8_counterexample :
    includesLoosely (strOf "ab") (strOf " ") = false ∧
      strOf " " ≠ [] ∧
      containsSub (strOf "ab") (strOf " ") = false ∧
      normalizeForMatch (strOf "ab") ≠ [] ∧
      containsSub (normalizeForMatch (strOf "ab")) (normalizeForMatch (strOf " ")) = true := by
  decide

/-- C8 (amended): for every non-empty needle, `includesLoosely` is true
exactly when the haystack contains the needle literally, or both canonical
forms are non-empty and the canonical haystack contains the canonical needle;
in particular `if(x){` loosely matches `  if (x) {`. -/
theorem C8_amended (h n : Str) (hn : n ≠ []) :
    (includesLoosely h n = true ↔
      (containsSub h n = true ∨
        (normalizeForMatch h ≠ [] ∧ normalizeForMatch n ≠ [] ∧
          containsSub (normalizeForMatch h) (normalizeForMatch n) = true))) ∧
      includesLoosely (strOf "  if (x) \x7b") (strOf "if(x)\x7b") = true := by
  refine ⟨?_, by decide⟩
  unfold includesLoosely
  rw [if_neg hn]
  by_cases hc : containsSub h n = true
  · simp [hc]
  · by_cases h1 : normalizeForMatch h = [] <;> by_cases h2 : normalizeForMatch n = [] <;>
      simp [h1, h2, hc]

/-- C8 witness: the amended equivalence instantiated at the haystack `ab` and
needle `a`. -/
theorem C8_witness :
    (includesLoosely (strOf "ab") (strOf "a") = true ↔
      (containsSub (strOf "ab") (strOf "a") = true ∨
        (normalizeForMatch (strOf "ab") ≠ [] ∧ normalizeForMatch (strOf "a") ≠ [] ∧
          containsSub (normalizeForMatch (strOf "ab")) (normalizeForMatch (strOf "a")) = true))) ∧
      includesLoosely (strOf "  if (x) \x7b") (strOf "if(x)\x7b") = true :=
  C8_amended (strOf "ab") (strOf "a") (by decide)

/-- C9: `findingsForLine` returns exactly the findings satisfying the
specified applicability test, in input order, and behaves as specified on the
concrete scenario (query line 3 returns the finding anchored at line 3, query
line 1 returns nothing). -/
theorem C9_findingsForLine :
    (∀ (findings : List Finding) (c : Str) (n : Int),
      findingsForLine findings c n = findings.filter (claimFindingApplies c n)) ∧
      findingsForLine [exC9Finding] exC9File 3 = [exC9Finding] ∧
      findingsForLine [exC9Finding] exC9File 1 = [] := by
  refine ⟨?_, by decide, by decide⟩
  intro findings c n
  unfold findingsForLine
  simp only []
  apply List.filter_congr
  intro f _
  unfold lineMatchesFinding claimFindingApplies
  rcases hl : f.evidence.lines with _ | ⟨a, l⟩
  · rw [if_pos rfl]
    simp only []
    have e1 : (decide (¬([] : List Int) = [])) = false := by decide
    have e2 : (decide (([] : List Int) = ([] : List Int))) = true := by decide
    have e3 : (([] : List Int).contains n) = false := rfl
    simp only [ne_eq, e1, e2, e3, Bool.false_and, Bool.false_or, Bool.true_and,
      Bool.and_false]
    by_cases hs : trim f.evidence.snippet = []
    · rw [if_pos hs, hs, splitLines_nil]
      simp [trim]
    · rw [if_neg hs]
      congr 1
      funext s
      by_cases h2 : (trim s).length ≥ 2
      · have hne : trim s ≠ [] := by
          intro h0
          rw [h0] at h2
          simp at h2
        simp [h2, hne]
      · simp [h2]
  · rw [if_neg (by simp)]
    have e1 : (decide (¬(a :: l) = ([] : List Int))) = true := rfl
    have e2 : (decide ((a :: l) = ([] : List Int))) = false := rfl
    simp only [ne_eq, e1, e2, Bool.true_and, Bool.false_and, Bool.or_false]

/-- C3 counterexample: on the file whose first line is blank, a finding with
empty snippet and the valid given lines `[1, 2]` has its snippet backfilled
with the derived text `x`, but the engine does not stop: the loose-matching
heuristics then relocate it to lines `[2]`, different from the given lines. -/
theorem C3_counterexample :
    trim exC3Finding.evidence.snippet = [] ∧
      exC3Finding.evidence.lines = [1, 2] ∧
      (∀ l ∈ exC3Finding.evidence.lines, 1 ≤ l ∧ l ≤ ((splitLines exC3File).length : Int)) ∧
      deriveSnippetFromLines (splitLines exC3File) exC3Finding = some (strOf "x") ∧
      (normalizeFindingLines exC3File exC3Finding).evidence.snippet = strOf "x" ∧
      (normalizeFindingLines exC3File exC3Finding).evidence.lines = [2] ∧
      (normalizeFindingLines exC3File exC3Finding).evidence.lines ≠
        exC3Finding.evidence.lines := by
  decide

/-- C3 (amended): when the snippet is empty and a snippet can be derived from
`evidence.lines`, the engine backfills the snippet with the derived text but
does not stop there — it continues with the loose-matching stage on the
derived snippet (with the original expected-line hint), so the returned lines
are recomputed and need not equal the given ones. -/
theorem C3_amended (c : Str) (f : Finding) (d : Str)
    (hs : f.evidence.snippet = [])
    (hd : deriveSnippetFromLines (splitLines c) f = some d) :
    normalizeFindingLines c f =
      looseStage (splitLines c) (getExpectedLine f) (trim d) (setSnippet f d) ∧
      (normalizeFindingLines c f).evidence.snippet = d := by
  have htr : trim f.evidence.snippet = [] := by rw [hs]; rfl
  have h1 : findLinesByDirectMatch (normCRLF c) f.evidence.snippet = none := by
    rw [hs]; rfl
  have h2 : findLinesByDirectMatch (normCRLF c) (trim f.evidence.snippet) = none := by
    rw [htr]; rfl
  have hD : jsOr (findLinesByDirectMatch (normCRLF c) f.evidence.snippet)
      (findLinesByDirectMatch (normCRLF c) (trim f.evidence.snippet)) = none := by
    rw [h1, h2]; rfl
  have hmain : normalizeFindingLines c f =
      looseStage (splitLines c) (getExpectedLine f) (trim d) (setSnippet f d) := by
    rw [normalizeFindingLines_nodirect c f hD, htr]
    exact afterDirect_derived (splitLines c) (getExpectedLine f) f d hd
  refine ⟨hmain, ?_⟩
  rw [hmain, looseStage_snippet, setSnippet_snippet]

/-- C3 witness: the amended statement evaluated on the counterexample file,
showing the backfilled snippet. -/
theorem C3_witness :
    (normalizeFindingLines exC3File exC3Finding).evidence.snippet = strOf "x" :=
  (C3_amended exC3File exC3Finding (strOf "x") rfl (by decide)).2

theorem agreesOutsideEvidence_setLines (f : Finding) (ls : List Int) :
    agreesOutsideEvidence (setLines f ls) f :=
  ⟨rfl, rfl, rfl, rfl, rfl, rfl, rfl⟩

theorem agreesOutsideEvidence_setSnippet (f : Finding) (s : Str) :
    agreesOutsideEvidence (setSnippet f s) f :=
  ⟨rfl, rfl, rfl, rfl, rfl, rfl, rfl⟩

theorem agreesOutsideEvidence_refl (f : Finding) : agreesOutsideEvidence f f :=
  ⟨rfl, rfl, rfl, rfl, rfl, rfl, rfl⟩

theorem agreesOutsideEvidence_trans (g h f : Finding)
    (h1 : agreesOutsideEvidence g h) (h2 : agreesOutsideEvidence h f) :
    agreesOutsideEvidence g f := by
  obtain ⟨a1, a2, a3, a4, a5, a6, a7⟩ := h1
  obtain ⟨b1, b2, b3, b4, b5, b6, b7⟩ := h2
  exact ⟨a1.trans b1, a2.trans b2, a3.trans b3, a4.trans b4, a5.trans b5,
    a6.trans b6, a7.trans b7⟩

theorem looseStage_frame (fl : List Str) (e? : Option Int) (s : Str) (w : Finding) :
    agreesOutsideEvidence (looseStage fl e? s w) w := by
  rcases hc : collectSnippetCandidates fl (splitLines s) with _ | ⟨c0, cs⟩
  · cases e? with
    | none => rw [looseStage_nil_none fl s w hc]; exact agreesOutsideEvidence_refl w
    | some e =>
      rw [looseStage_nil_some fl e s w hc]
      exact agreesOutsideEvidence_setLines w _
  · rw [looseStage_cons fl e? s w c0 cs hc]
    exact agreesOutsideEvidence_setLines w _

theorem afterDirect_frame (fl : List Str) (e? : Option Int) (s : Str) (f : Finding) :
    agreesOutsideEvidence (afterDirect fl e? s f) f := by
  by_cases hs : s = []
  · subst hs
    rcases hd : deriveSnippetFromLines fl f with _ | d
    · cases e? with
      | none =>
        rw [afterDirect_stuck fl none f hd (by intro e he; cases he)]
        exact agreesOutsideEvidence_refl f
      | some e =>
        by_cases hpos : e > 0
        · rw [afterDirect_hint fl e f hd hpos]
          exact ⟨rfl, rfl, rfl, rfl, rfl, rfl, rfl⟩
        · rw [afterDirect_stuck fl (some e) f hd
            (by intro x hx; injection hx with hx; rw [← hx]; exact hpos)]
          exact agreesOutsideEvidence_refl f
    · rw [afterDirect_derived fl e? f d hd]
      exact agreesOutsideEvidence_trans _ _ _
        (looseStage_frame fl e? (trim d) (setSnippet f d))
        (agreesOutsideEvidence_setSnippet f d)
  · rw [afterDirect_loose fl e? s f hs]
    exact looseStage_frame fl e? s f

/-- C10: the engine only rewrites the `evidence` of a finding — identifier,
severity, confidence, CWE/OWASP tags, explanation and fix (including the
patch) are returned unchanged on every path; in the pure model the input
itself is of course never mutated. -/
theorem C10_frame (c : Str) (f : Finding) :
    agreesOutsideEvidence (normalizeFindingLines c f) f := by
  rcases hD : jsOr (findLinesByDirectMatch (normCRLF c) f.evidence.snippet)
      (findLinesByDirectMatch (normCRLF c) (trim f.evidence.snippet)) with _ | dl
  · rw [normalizeFindingLines_nodirect c f hD]
    exact afterDirect_frame _ _ _ f
  · have hne : dl ≠ [] := by
      rcases hj : findLinesByDirectMatch (normCRLF c) f.evidence.snippet with _ | dl1
      · unfold jsOr at hD
        rw [hj] at hD
        exact findLinesByDirectMatch_ne_nil _ _ dl hD
      · unfold jsOr at hD
        rw [hj] at hD
        injection hD with hD
        subst hD
        exact findLinesByDirectMatch_ne_nil _ _ dl1 hj
    rw [normalizeFindingLines_direct c f dl hD hne]
    exact agreesOutsideEvidence_setLines f dl

theorem jsOr_direct_ne_nil (x s1 s2 : Str) (dl : List Int)
    (hD : jsOr (findLinesByDirectMatch x s1) (findLinesByDirectMatch x s2) = some dl) :
    dl ≠ [] := by
  rcases hj : findLinesByDirectMatch x s1 with _ | dl1
  · unfold jsOr at hD
    rw [hj] at hD
    exact findLinesByDirectMatch_ne_nil _ _ dl hD
  · unfold jsOr at hD
    rw [hj] at hD
    injection hD with hD
    subst hD
    exact findLinesByDirectMatch_ne_nil _ _ dl1 hj

theorem jsOr_direct_valid (c s1 s2 : Str) (dl : List Int)
    (hD : jsOr (findLinesByDirectMatch (normCRLF c) s1)
        (findLinesByDirectMatch (normCRLF c) s2) = some dl) :
    ∀ l ∈ dl, 1 ≤ l ∧ l ≤ ((splitLines c).length : Int) := by
  rcases hj : findLinesByDirectMatch (normCRLF c) s1 with _ | dl1
  · unfold jsOr at hD
    rw [hj] at hD
    exact direct_valid c s2 dl hD
  · unfold jsOr at hD
    rw [hj] at hD
    injection hD with hD
    subst hD
    exact direct_valid c s1 dl1 hj

/-- C1 counterexample: on the one-line file `a`, the empty-snippet hint
fallback copies the out-of-range hint 99 into the returned evidence lines,
violating the validity invariant. -/
theorem C1_counterexample :
    (normalizeFindingLines exC1File exC1Finding).evidence.lines = [99] ∧
      (splitLines exC1File).length = 1 ∧
      ¬(∀ l ∈ (normalizeFindingLines exC1File exC1Finding).evidence.lines,
          1 ≤ l ∧ l ≤ ((splitLines exC1File).length : Int)) := by
  decide

/-- C1 (amended): the returned `evidence.lines` are valid 1-based line numbers
of the file whenever the engine actually located the snippet — when the direct
match succeeded (on the raw or trimmed snippet), and when the loose stage had
at least one candidate for a non-empty trimmed snippet.  On the hint fallback
paths the engine copies the unvalidated hint, which may lie outside the file
(as the counterexample shows). -/
theorem C1_amended (c : Str) (f : Finding) :
    ((jsOr (findLinesByDirectMatch (normCRLF c) f.evidence.snippet)
        (findLinesByDirectMatch (normCRLF c) (trim f.evidence.snippet))).isSome →
      ∀ l ∈ (normalizeFindingLines c f).evidence.lines,
        1 ≤ l ∧ l ≤ ((splitLines c).length : Int)) ∧
    (trim f.evidence.snippet ≠ [] →
      collectSnippetCandidates (splitLines c) (splitLines (trim f.evidence.snippet)) ≠ [] →
      ∀ l ∈ (normalizeFindingLines c f).evidence.lines,
        1 ≤ l ∧ l ≤ ((splitLines c).length : Int)) := by
  constructor
  · intro hsome
    rcases Option.isSome_iff_exists.mp hsome with ⟨dl, hD⟩
    have hne := jsOr_direct_ne_nil _ _ _ dl hD
    rw [normalizeFindingLines_direct c f dl hD hne, setLines_lines]
    exact jsOr_direct_valid c _ _ dl hD
  · intro hs hc
    rcases hD : jsOr (findLinesByDirectMatch (normCRLF c) f.evidence.snippet)
        (findLinesByDirectMatch (normCRLF c) (trim f.evidence.snippet)) with _ | dl
    · rw [normalizeFindingLines_nodirect c f hD, afterDirect_loose _ _ _ _ hs]
      rcases hcc : collectSnippetCandidates (splitLines c)
          (splitLines (trim f.evidence.snippet)) with _ | ⟨c0, cs⟩
      · exact absurd hcc hc
      · rw [looseStage_cons _ _ _ _ c0 cs hcc, setLines_lines]
        exact rangeLines_mem _ _ _
    · have hne := jsOr_direct_ne_nil _ _ _ dl hD
      rw [normalizeFindingLines_direct c f dl hD hne, setLines_lines]
      exact jsOr_direct_valid c _ _ dl hD

/-- C1 witness: the amended validity instantiated on the file `ab` and the
exactly-matching snippet `ab`, at the returned line 1. -/
theorem C1_witness :
    1 ≤ (1 : Int) ∧ (1 : Int) ≤ ((splitLines (strOf "ab")).length : Int) :=
  (C1_amended (strOf "ab") (mkFinding [] (strOf "ab") [])).1 (by decide) 1 (by decide)

/-- C2 counterexample: the trimmed snippet `foo` occurs verbatim in the file
(a single-line snippet, so any trimmed-snippet-based range has length one),
yet the engine returns the two-line range `[2, 3]` of the first occurrence of
the raw snippet, which carries a leading newline. -/
theorem C2_counterexample :
    containsSub (normCRLF exC2File) (trim exC2Finding.evidence.snippet) = true ∧
      trim exC2Finding.evidence.snippet = strOf "foo" ∧
      (splitLines (trim exC2Finding.evidence.snippet)).length = 1 ∧
      (normalizeFindingLines exC2File exC2Finding).evidence.lines = [2, 3] := by
  decide

/-- C2 (amended): the exact-substring match takes precedence over every
heuristic and every hint, but it is attempted on the raw snippet first and
only then on the trimmed snippet: whenever the raw (respectively, raw failing,
the trimmed) snippet direct-matches, its result is returned verbatim; the
direct result is the contiguous range starting at one plus the number of line
breaks in the prefix before the first occurrence, of length the matched
snippet's line count; and on the specification's concrete scenario (file with
`const x = 1;` at line 5, snippet exactly that line, conflicting hints 2 and
99) the engine returns `[5]`. -/
theorem C2_amended (c : Str) (f : Finding) :
    (∀ dl, findLinesByDirectMatch (normCRLF c) f.evidence.snippet = some dl →
      (normalizeFindingLines c f).evidence.lines = dl) ∧
    (∀ dl, findLinesByDirectMatch (normCRLF c) f.evidence.snippet = none →
      findLinesByDirectMatch (normCRLF c) (trim f.evidence.snippet) = some dl →
      (normalizeFindingLines c f).evidence.lines = dl) ∧
    (∀ (s : Str) (idx : Nat), s ≠ [] →
      firstIndexOf (normCRLF c) (normCRLF s) = some idx →
      findLinesByDirectMatch (normCRLF c) s =
        some ((List.range (countNL (normCRLF s) + 1)).map
          (fun (i : Nat) => ((countNL ((normCRLF c).take idx) + 1 + i : Nat) : Int)))) ∧
    (normalizeFindingLines exC2DemoFile exC2DemoFinding).evidence.lines = [5] := by
  refine ⟨?_, ?_, ?_, by decide⟩
  · intro dl hdl
    have hD : jsOr (findLinesByDirectMatch (normCRLF c) f.evidence.snippet)
        (findLinesByDirectMatch (normCRLF c) (trim f.evidence.snippet)) = some dl := by
      unfold jsOr
      rw [hdl]
    have hne := jsOr_direct_ne_nil _ _ _ dl hD
    rw [normalizeFindingLines_direct c f dl hD hne, setLines_lines]
  · intro dl h1 h2
    have hD : jsOr (findLinesByDirectMatch (normCRLF c) f.evidence.snippet)
        (findLinesByDirectMatch (normCRLF c) (trim f.evidence.snippet)) = some dl := by
      unfold jsOr
      rw [h1, h2]
    have hne := jsOr_direct_ne_nil _ _ _ dl hD
    rw [normalizeFindingLines_direct c f dl hD hne, setLines_lines]
  · intro s idx hs hidx
    unfold findLinesByDirectMatch
    rw [if_neg hs]
    simp only []
    rw [hidx]
    have hm : max (splitOnChar '\n' (normCRLF s)).length 1 = countNL (normCRLF s) + 1 := by
      unfold countNL
      rw [splitOnChar_length]
      omega
    simp only [startLine_eq, hm]

/-- C2 witness: the raw-snippet precedence applied on the file `ab` with the
snippet `b`, which direct-matches with result `[1]`. -/
theorem C2_witness :
    (normalizeFindingLines (strOf "ab") (mkFinding [99] (strOf "b") [])).evidence.lines = [1] :=
  (C2_amended (strOf "ab") (mkFinding [99] (strOf "b") [])).1 [1] (by decide)

theorem collectSnippetCandidates_sorted (fl sl : List Str) :
    (collectSnippetCandidates fl sl).Pairwise (· ≤ ·) := by
  unfold collectSnippetCandidates
  simp only []
  have hrange : ∀ n : Nat, (List.range n).Pairwise (· ≤ ·) :=
    fun n => (List.pairwise_lt_range n).imp le_of_lt
  split_ifs
  all_goals
    first
      | exact List.Pairwise.nil
      | exact List.Pairwise.sublist (List.filter_sublist _) (hrange _)

set_option maxRecDepth 4000 in
/-- C5: with candidates present, the engine picks a candidate whose distance
to the expected-line hint is minimal over all candidates; with no hint it
picks the first candidate, which is the lowest-index one since the candidate
list is ascending; and on the concrete scenario where the signature matches
at lines 3 and 40 with original hint 38, the engine returns line 40. -/
theorem C5_hint_disambiguation :
    (∀ (c0 : Nat) (cs : List Nat) (e : Int),
      chooseBaseIndex c0 cs (some e) ∈ c0 :: cs ∧
        ∀ x ∈ c0 :: cs,
          |((chooseBaseIndex c0 cs (some e) : Nat) : Int) - max (e - 1) 0| ≤
            |(x : Int) - max (e - 1) 0|) ∧
    (∀ (fl sl : List Str) (c0 : Nat) (cs : List Nat),
      collectSnippetCandidates fl sl = c0 :: cs →
      chooseBaseIndex c0 cs none = c0 ∧ ∀ x ∈ c0 :: cs, c0 ≤ x) ∧
    collectSnippetCandidates (splitLines exC5File)
        (splitLines (trim exC5Finding.evidence.snippet)) = [2, 39] ∧
    (normalizeFindingLines exC5File exC5Finding).evidence.lines = [40] := by
  refine ⟨?_, ?_, by decide, by decide⟩
  · intro c0 cs e
    exact ⟨chooseBaseIndex_mem c0 cs (some e), chooseBaseIndex_min c0 cs e⟩
  · intro fl sl c0 cs hc
    have hsorted := collectSnippetCandidates_sorted fl sl
    rw [hc] at hsorted
    refine ⟨chooseBaseIndex_none c0 cs, ?_⟩
    intro x hx
    rcases List.mem_cons.mp hx with rfl | hx
    · exact le_refl x
    · exact (List.pairwise_cons.mp hsorted).1 x hx

set_option maxRecDepth 4000 in
/-- C5 witness: the no-hint clause instantiated on the scenario file, whose
candidate list is `[2, 39]`: the first (lowest) candidate is chosen. -/
theorem C5_witness : chooseBaseIndex 2 [39] none = 2 :=
  ((C5_hint_disambiguation.2.1 (splitLines exC5File)
    (splitLines (trim exC5Finding.evidence.snippet)) 2 [39] (by decide))).1

/-- C6 counterexample: on the two-line file `foo`/`foo` and a finding with
empty snippet and given line 2, the first run keeps lines `[2]` and backfills
the snippet `foo`; the second run exact-matches the backfilled snippet at its
first occurrence and relocates to `[1]`, so re-running the engine on its own
output changes the result. -/
theorem C6_counterexample :
    (normalizeFindingLines exC6File exC6Finding).evidence.lines = [2] ∧
      (normalizeFindingLines exC6File
        (normalizeFindingLines exC6File exC6Finding)).evidence.lines = [1] ∧
      normalizeFindingLines exC6File (normalizeFindingLines exC6File exC6Finding) ≠
        normalizeFindingLines exC6File exC6Finding := by
  decide

/-- C6 (amended): re-anchoring is idempotent for every finding whose snippet
does not trim to the empty string; when the snippet is empty the first run may
backfill it from the given lines or hint, and the second run's exact-match on
the backfilled snippet can relocate to an earlier duplicate occurrence. -/
theorem C6_amended (c : Str) (f : Finding) (hs : trim f.evidence.snippet ≠ []) :
    normalizeFindingLines c (normalizeFindingLines c f) = normalizeFindingLines c f := by
  rcases hD : jsOr (findLinesByDirectMatch (normCRLF c) f.evidence.snippet)
      (findLinesByDirectMatch (normCRLF c) (trim f.evidence.snippet)) with _ | dl
  · have hout : normalizeFindingLines c f =
        looseStage (splitLines c) (getExpectedLine f) (trim f.evidence.snippet) f := by
      rw [normalizeFindingLines_nodirect c f hD, afterDirect_loose _ _ _ _ hs]
    rcases hc : collectSnippetCandidates (splitLines c)
        (splitLines (trim f.evidence.snippet)) with _ | ⟨c0, cs⟩
    · rcases he : getExpectedLine f with _ | ev
      · have hfix : normalizeFindingLines c f = f := by
          rw [hout, he, looseStage_nil_none _ _ _ hc]
        rw [hfix]
        exact hfix
      · have hout2 : normalizeFindingLines c f =
            setLines f (hintLines ev (snippetCount (trim f.evidence.snippet))) := by
          rw [hout, he, looseStage_nil_some _ _ _ _ hc]
        rw [hout2]
        have hsnip := setLines_snippet f
          (hintLines ev (snippetCount (trim f.evidence.snippet)))
        have hD2 : jsOr
            (findLinesByDirectMatch (normCRLF c)
              (setLines f (hintLines ev (snippetCount (trim f.evidence.snippet)))).evidence.snippet)
            (findLinesByDirectMatch (normCRLF c)
              (trim (setLines f
                (hintLines ev (snippetCount (trim f.evidence.snippet)))).evidence.snippet)) =
            none := by
          rw [hsnip]
          exact hD
        obtain ⟨rest, hrest⟩ :=
          hintLines_head ev (snippetCount (trim f.evidence.snippet))
            (snippetCount_pos (trim f.evidence.snippet))
        have he2 : getExpectedLine
            (setLines f (hintLines ev (snippetCount (trim f.evidence.snippet)))) = some ev := by
          rw [hrest]
          exact getExpectedLine_setLines_cons f ev rest
        rw [normalizeFindingLines_nodirect c _ hD2, hsnip, he2,
          afterDirect_loose _ _ _ _ hs, looseStage_nil_some _ _ _ _ hc, setLines_setLines]
    · obtain ⟨b, hbdef⟩ : ∃ b, chooseBaseIndex c0 cs (getExpectedLine f) = b := ⟨_, rfl⟩
      have hb0 : b ∈ c0 :: cs := hbdef ▸ chooseBaseIndex_mem c0 cs (getExpectedLine f)
      have hblt : b < (splitLines c).length := by
        apply collectSnippetCandidates_lt (splitLines c)
          (splitLines (trim f.evidence.snippet))
        rw [hc]
        exact hb0
      have hout2 : normalizeFindingLines c f =
          setLines f (rangeLines b (snippetCount (trim f.evidence.snippet))
            (splitLines c).length) := by
        rw [hout, looseStage_cons _ _ _ _ c0 cs hc, hbdef]
      rw [hout2]
      have hsnip := setLines_snippet f
        (rangeLines b (snippetCount (trim f.evidence.snippet)) (splitLines c).length)
      have hD2 : jsOr
          (findLinesByDirectMatch (normCRLF c)
            (setLines f (rangeLines b (snippetCount (trim f.evidence.snippet))
              (splitLines c).length)).evidence.snippet)
          (findLinesByDirectMatch (normCRLF c)
            (trim (setLines f (rangeLines b (snippetCount (trim f.evidence.snippet))
              (splitLines c).length)).evidence.snippet)) = none := by
        rw [hsnip]
        exact hD
      obtain ⟨rest, hrest⟩ :=
        rangeLines_head b (snippetCount (trim f.evidence.snippet)) (splitLines c).length
          (snippetCount_pos (trim f.evidence.snippet)) hblt
      have he2 : getExpectedLine
          (setLines f (rangeLines b (snippetCount (trim f.evidence.snippet))
            (splitLines c).length)) = some ((b : Int) + 1) := by
        rw [hrest]
        exact getExpectedLine_setLines_cons f _ rest
      have hmax : max (((b : Int) + 1) - 1) 0 = (b : Int) := by
        have h1 : ((b : Int) + 1 - 1) = (b : Int) := by ring
        rw [h1]
        exact max_eq_left (by positivity)
      have hchoose : chooseBaseIndex c0 cs (some ((b : Int) + 1)) = b :=
        chooseBaseIndex_exact c0 cs b ((b : Int) + 1) hb0 hmax
      rw [normalizeFindingLines_nodirect c _ hD2, hsnip, he2,
        afterDirect_loose _ _ _ _ hs, looseStage_cons _ _ _ _ c0 cs hc, hchoose,
        setLines_setLines]
  · have hne := jsOr_direct_ne_nil _ _ _ dl hD
    have hout : normalizeFindingLines c f = setLines f dl :=
      normalizeFindingLines_direct c f dl hD hne
    rw [hout]
    have hsnip := setLines_snippet f dl
    have hD2 : jsOr (findLinesByDirectMatch (normCRLF c) (setLines f dl).evidence.snippet)
        (findLinesByDirectMatch (normCRLF c)
          (trim (setLines f dl).evidence.snippet)) = some dl := by
      rw [hsnip]
      exact hD
    rw [normalizeFindingLines_direct c _ dl hD2 hne, setLines_setLines]

/-- C6 witness: idempotence on the two-line file `a`/`b` with the non-empty
snippet `b`. -/
theorem C6_witness :
    normalizeFindingLines exC6WitFile (normalizeFindingLines exC6WitFile exC6WitFinding) =
      normalizeFindingLines exC6WitFile exC6WitFinding :=
  C6_amended exC6WitFile exC6WitFinding (by decide)

end AuditAI
